import Mathlib

/-!
Shallow embedding of the tone-generator application (src/src/App.tsx).

The pure math (frequency mapping, note labelling, spectrum bucketing,
response-curve geometry) is modelled over the real numbers; the audio
session lifecycle (startTone / stopTone and the four audio-graph handles)
is modelled as an explicit state machine.
-/

namespace SynthLab

/-- Source constant `MIN_FREQ = 10` (App.tsx line 3). -/
def MIN_FREQ : ℝ := 10

/-- Source constant `MAX_FREQ = 25000` (App.tsx line 4). -/
def MAX_FREQ : ℝ := 25000

/-- Source constant `MAX_VOLUME = 0.2` (App.tsx line 5). -/
def MAX_VOLUME : ℝ := 0.2

/-- Source constant `SPECTRUM_BARS = 72` (App.tsx line 6). -/
def SPECTRUM_BARS : ℕ := 72

/-- `sliderToFrequency` (App.tsx lines 8-11):
`MIN_FREQ * Math.pow(MAX_FREQ / MIN_FREQ, value / 100)`. -/
noncomputable def sliderToFrequency (value : ℝ) : ℝ :=
  MIN_FREQ * (MAX_FREQ / MIN_FREQ) ^ (value / 100)

/-- `frequencyToSlider` (App.tsx lines 13-15):
`(Math.log(freq / MIN_FREQ) / Math.log(MAX_FREQ / MIN_FREQ)) * 100`. -/
noncomputable def frequencyToSlider (freq : ℝ) : ℝ :=
  Real.log (freq / MIN_FREQ) / Real.log (MAX_FREQ / MIN_FREQ) * 100

lemma ratio_eq : MAX_FREQ / MIN_FREQ = 2500 := by
  simp [MAX_FREQ, MIN_FREQ]; norm_num

lemma log_ratio_pos : 0 < Real.log (MAX_FREQ / MIN_FREQ) := by
  rw [ratio_eq]; exact Real.log_pos (by norm_num)

lemma roundtrip_exact (p : ℝ) : frequencyToSlider (sliderToFrequency p) = p := by
  unfold frequencyToSlider sliderToFrequency
  rw [ratio_eq]
  have h10 : (MIN_FREQ : ℝ) ≠ 0 := by simp [MIN_FREQ]
  have harg : MIN_FREQ * (2500 : ℝ) ^ (p / 100) / MIN_FREQ = (2500 : ℝ) ^ (p / 100) := by
    field_simp
  rw [harg, Real.log_rpow (by norm_num : (0:ℝ) < 2500)]
  have hlog : Real.log (2500 : ℝ) ≠ 0 := ne_of_gt (Real.log_pos (by norm_num))
  field_simp
  ring

/-- C1: for every control position p in [0,100], the position-to-frequency
map followed by the frequency-to-position map returns p (here the round
trip is exact over ℝ, hence in particular within 1e-6 relative tolerance). -/
theorem c1_slider_roundtrip (p : ℝ) (h0 : 0 ≤ p) (h1 : p ≤ 100) :
    frequencyToSlider (sliderToFrequency p) = p ∧
    |frequencyToSlider (sliderToFrequency p) - p| ≤ p * (1 / 1000000) := by
  refine ⟨roundtrip_exact p, ?_⟩
  rw [roundtrip_exact p]
  simp only [sub_self, abs_zero]
  positivity

/-- Witness for C1 at p = 50. -/
theorem c1_slider_roundtrip_witness :
    (0:ℝ) ≤ 50 ∧ (50:ℝ) ≤ 100 ∧ frequencyToSlider (sliderToFrequency 50) = 50 :=
  ⟨by norm_num, by norm_num,
    (c1_slider_roundtrip 50 (by norm_num) (by norm_num)).1⟩

/-- C3: `sliderToFrequency` is strictly monotone on [0,100] and hits the
domain boundaries exactly: value 10 at position 0 and 25000 at position 100. -/
theorem c3_sliderToFrequency_mono_bounds :
    (∀ a b : ℝ, 0 ≤ a → a < b → b ≤ 100 →
      sliderToFrequency a < sliderToFrequency b) ∧
    sliderToFrequency 0 = 10 ∧ sliderToFrequency 100 = 25000 := by
  refine ⟨?_, ?_, ?_⟩
  · intro a b _ hab _
    unfold sliderToFrequency
    rw [ratio_eq]
    have hmin : (0:ℝ) < MIN_FREQ := by norm_num [MIN_FREQ]
    have : (2500:ℝ) ^ (a / 100) < (2500:ℝ) ^ (b / 100) := by
      rw [Real.rpow_lt_rpow_left_iff (by norm_num : (1:ℝ) < 2500)]
      linarith
    exact mul_lt_mul_of_pos_left this hmin
  · unfold sliderToFrequency
    rw [ratio_eq]
    norm_num [MIN_FREQ]
  · unfold sliderToFrequency
    rw [ratio_eq]
    have h1 : (100:ℝ) / 100 = 1 := by norm_num
    rw [h1, Real.rpow_one]
    norm_num [MIN_FREQ]

/-- Witness for C3 at positions 0 and 100. -/
theorem c3_sliderToFrequency_mono_bounds_witness :
    (0:ℝ) ≤ 0 ∧ (0:ℝ) < 100 ∧ (100:ℝ) ≤ 100 ∧
    sliderToFrequency 0 < sliderToFrequency 100 :=
  ⟨le_refl 0, by norm_num, le_refl 100,
    c3_sliderToFrequency_mono_bounds.1 0 100 (le_refl 0) (by norm_num) (le_refl 100)⟩

/-- The `notes` table inside `frequencyToNoteLabel` (App.tsx line 18). -/
def noteNames : List String :=
  ["C", "C#", "D", "D#", "E", "F"] ++ ["F#", "G", "G#", "A", "A#", "B"]

/-- The MIDI pitch computed in `frequencyToNoteLabel` (App.tsx line 19):
`Math.round(12 * Math.log2(freq / 440) + 69)`. `round` here, like
`Math.round`, maps x to ⌊x + 1/2⌋. -/
noncomputable def midiOf (f : ℝ) : ℤ := round (12 * Real.logb 2 (f / 440) + 69)

/-- The note-table index `((midi % 12) + 12) % 12` (App.tsx line 20);
JavaScript `%` on integers is the truncated remainder, i.e. `Int.tmod`. -/
def wrapIndex (m : ℤ) : ℤ := (m.tmod 12 + 12).tmod 12

/-- Index of the note name used by `frequencyToNoteLabel`. -/
noncomputable def noteIndexOf (f : ℝ) : ℤ := wrapIndex (midiOf f)

/-- The octave `Math.floor(midi / 12) - 1` (App.tsx line 21); JavaScript
divides as reals before flooring. -/
noncomputable def octaveOf (f : ℝ) : ℤ := ⌊((midiOf f : ℝ)) / 12⌋ - 1

/-- The target frequency `440 * Math.pow(2, (midi - 69) / 12)` (App.tsx
line 22). -/
noncomputable def noteTarget (f : ℝ) : ℝ :=
  440 * (2:ℝ) ^ (((midiOf f : ℝ) - 69) / 12)

/-- The cents deviation `Math.round(1200 * Math.log2(freq / target))`
(App.tsx line 23). -/
noncomputable def centsOf (f : ℝ) : ℤ :=
  round (1200 * Real.logb 2 (f / noteTarget f))

/-- `frequencyToNoteLabel` (App.tsx lines 17-26); the sign prefix is
`cents > 0 ? "+" + cents : "" + cents`. -/
noncomputable def frequencyToNoteLabel (f : ℝ) : String :=
  let note := noteNames.getD (noteIndexOf f).toNat ""
  let centsSign :=
    if 0 < centsOf f then "+" ++ toString (centsOf f) else toString (centsOf f)
  note ++ toString (octaveOf f) ++ " (" ++ centsSign ++ "c)"

lemma tmod_twelve_lower (m : ℤ) : -12 < m.tmod 12 := by
  cases m with
  | ofNat n =>
    have h := Int.tmod_nonneg (a := Int.ofNat n) 12 (Int.ofNat_nonneg n)
    omega
  | negSucc n =>
    have h : (Int.negSucc n).tmod 12 = -Int.ofNat ((n+1) % 12) := rfl
    have h2 : (n+1) % 12 < 12 := Nat.mod_lt _ (by norm_num)
    have h3 : (Int.ofNat ((n+1) % 12)) < (12:ℤ) := by
      rw [Int.ofNat_eq_natCast]
      exact_mod_cast h2
    omega

lemma wrapIndex_nonneg (m : ℤ) : 0 ≤ wrapIndex m := by
  unfold wrapIndex
  apply Int.tmod_nonneg
  have := tmod_twelve_lower m
  omega

lemma wrapIndex_lt (m : ℤ) : wrapIndex m < 12 :=
  Int.tmod_lt_of_pos _ (by norm_num)

lemma midiOf_440 : midiOf 440 = 69 := by
  unfold midiOf
  norm_num [round_eq]

lemma midiOf_880 : midiOf 880 = 81 := by
  unfold midiOf
  have h : Real.logb 2 (880/440 : ℝ) = 1 := by norm_num
  rw [h]
  norm_num [round_eq]

lemma noteTarget_440 : noteTarget 440 = 440 := by
  unfold noteTarget
  rw [midiOf_440]
  norm_num

lemma noteTarget_880 : noteTarget 880 = 880 := by
  unfold noteTarget
  rw [midiOf_880]
  have h : ((((81:ℤ):ℝ)) - 69) / 12 = 1 := by norm_num
  rw [h, Real.rpow_one]
  norm_num

lemma centsOf_440 : centsOf 440 = 0 := by
  unfold centsOf
  rw [noteTarget_440]
  norm_num [round_eq]

lemma centsOf_880 : centsOf 880 = 0 := by
  unfold centsOf
  rw [noteTarget_880]
  norm_num [round_eq]

lemma noteLabel_440 : frequencyToNoteLabel 440 = "A4 (0c)" := by
  unfold frequencyToNoteLabel octaveOf noteIndexOf
  rw [midiOf_440, centsOf_440]
  norm_num
  decide

lemma noteLabel_880 : frequencyToNoteLabel 880 = "A5 (0c)" := by
  unfold frequencyToNoteLabel octaveOf noteIndexOf
  rw [midiOf_880, centsOf_880]
  norm_num
  decide

/-- C2 counterexample: the code prints an explicit '+' only for strictly
positive cents, so at 440 Hz (zero cents) the label is "A4 (0c)", not
"A4 (+0c)" as the claim states. -/
theorem c2_note_label_counterexample :
    frequencyToNoteLabel 440 = "A4 (0c)" ∧ frequencyToNoteLabel 440 ≠ "A4 (+0c)" := by
  refine ⟨noteLabel_440, ?_⟩
  rw [noteLabel_440]
  decide

/-- C2 amended: `frequencyToNoteLabel` computes MIDI pitch
round(12*log2(f/440) + 69), note name from the pitch wrapped into [0,12),
octave ⌊pitch/12⌋ - 1, cents round(1200*log2(f/target)), and formats
"<Note><Octave> (<signed-cents>c)" with an explicit '+' sign only for
strictly positive cents; in particular it yields "A4 (0c)" at 440 Hz and
"A5 (0c)" at 880 Hz. -/
theorem c2_note_label_amended :
    (∀ f : ℝ,
      midiOf f = round (12 * Real.logb 2 (f / 440) + 69) ∧
      noteIndexOf f = ((midiOf f).tmod 12 + 12).tmod 12 ∧
      octaveOf f = ⌊((midiOf f : ℝ)) / 12⌋ - 1 ∧
      centsOf f = round (1200 * Real.logb 2
        (f / (440 * (2:ℝ) ^ (((midiOf f : ℝ) - 69) / 12)))) ∧
      frequencyToNoteLabel f =
        noteNames.getD (noteIndexOf f).toNat "" ++ toString (octaveOf f) ++
          " (" ++ (if 0 < centsOf f then "+" ++ toString (centsOf f)
                   else toString (centsOf f)) ++ "c)") ∧
    frequencyToNoteLabel 440 = "A4 (0c)" ∧ frequencyToNoteLabel 880 = "A5 (0c)" :=
  ⟨fun _ => ⟨rfl, rfl, rfl, rfl, rfl⟩, noteLabel_440, noteLabel_880⟩

/-- C9: the note-table index ((midi % 12) + 12) % 12 always lies in
[0, 12), even for negative rounded MIDI pitches, so the lookup into the
12-element note-name table is in bounds for every positive frequency. -/
theorem c9_note_index_in_bounds (f : ℝ) (hf : 0 < f) :
    0 ≤ noteIndexOf f ∧ noteIndexOf f < 12 ∧
    (noteIndexOf f).toNat < noteNames.length := by
  have h1 := wrapIndex_nonneg (midiOf f)
  have h2 := wrapIndex_lt (midiOf f)
  refine ⟨h1, h2, ?_⟩
  have hl : noteNames.length = 12 := rfl
  rw [hl]
  unfold noteIndexOf at *
  omega

/-- Witness for C9 at f = 1 Hz (a frequency whose rounded MIDI pitch is
negative). -/
theorem c9_note_index_in_bounds_witness :
    (0:ℝ) < 1 ∧ (noteIndexOf 1).toNat < noteNames.length :=
  ⟨by norm_num, (c9_note_index_in_bounds 1 (by norm_num)).2.2⟩

/-- The audio-session state held by the component: the four ref cells
`audioCtxRef`, `oscillatorRef`, `gainRef`, `analyserRef` (App.tsx lines
49-52) and the `isPlaying` flag (line 47). `openContexts` counts audio
contexts created by `new AudioContext()` and not yet closed, and `nextId`
is the allocator for fresh handle identities. -/
structure ToneState where
  audioCtx : Option ℕ
  oscillator : Option ℕ
  gain : Option ℕ
  analyser : Option ℕ
  isPlaying : Bool
  openContexts : ℕ
  nextId : ℕ
  deriving DecidableEq, Repr

/-- The component's initial state: all refs null, not playing. -/
def initState : ToneState :=
  { audioCtx := none, oscillator := none, gain := none, analyser := none,
    isPlaying := false, openContexts := 0, nextId := 0 }

/-- `startTone` (App.tsx lines 318-342): returns immediately if
`isPlaying`; otherwise creates a context, oscillator, gain and analyser,
wires them up, assigns all four refs and sets `isPlaying` to true. -/
def startTone (s : ToneState) : ToneState :=
  if s.isPlaying then s
  else
    { audioCtx := some s.nextId, oscillator := some (s.nextId + 1),
      gain := some (s.nextId + 2), analyser := some (s.nextId + 3),
      isPlaying := true, openContexts := s.openContexts + 1,
      nextId := s.nextId + 4 }

/-- `stopTone` (App.tsx lines 344-355): unconditionally stops and
disconnects the nodes through optional chaining (no-ops on null), nulls
all four refs, closes the context if one exists, and clears `isPlaying`. -/
def stopTone (s : ToneState) : ToneState :=
  { audioCtx := none, oscillator := none, gain := none, analyser := none,
    isPlaying := false,
    openContexts := if s.audioCtx.isSome then s.openContexts - 1 else s.openContexts,
    nextId := s.nextId }

/-- States reachable from the initial state through the engine's
start/stop operations. -/
inductive Reachable : ToneState → Prop where
  | init : Reachable initState
  | start {s : ToneState} : Reachable s → Reachable (startTone s)
  | stop {s : ToneState} : Reachable s → Reachable (stopTone s)

/-- The all-or-nothing session invariant: playing states hold all four
handles and exactly one open context; idle states hold none. -/
def EngineInv (s : ToneState) : Prop :=
  (s.isPlaying = true → s.audioCtx.isSome ∧ s.oscillator.isSome ∧
    s.gain.isSome ∧ s.analyser.isSome ∧ s.openContexts = 1) ∧
  (s.isPlaying = false → s.audioCtx = none ∧ s.oscillator = none ∧
    s.gain = none ∧ s.analyser = none ∧ s.openContexts = 0)

lemma reachable_inv {s : ToneState} (h : Reachable s) : EngineInv s := by
  induction h with
  | init =>
    refine ⟨?_, ?_⟩ <;> intro hp <;> simp_all [initState]
  | @start t h ih =>
    by_cases hp : t.isPlaying = true
    · have he : startTone t = t := by simp [startTone, hp]
      rw [he]
      exact ih
    · have h0 : t.openContexts = 0 := (ih.2 (by simpa using hp)).2.2.2.2
      refine ⟨?_, ?_⟩ <;> intro hq <;> simp_all [startTone]
  | @stop t h ih =>
    constructor
    · intro hq
      simp [stopTone] at hq
    · intro hq
      by_cases hp : t.isPlaying = true
      · have hi := ih.1 hp
        simp [stopTone, hi.1, hi.2.2.2.2]
      · have hi := ih.2 (by simpa using hp)
        simp [stopTone, hi.1, hi.2.2.2.2]

/-- C4: start while Running is a no-op; every reachable state holds at
most one open audio context, and calling start twice in a row leaves
exactly one, the second call allocating nothing. -/
theorem c4_start_idempotent :
    (∀ s : ToneState, Reachable s → s.openContexts ≤ 1) ∧
    (∀ s : ToneState, s.isPlaying = true → startTone s = s) ∧
    (∀ s : ToneState, Reachable s →
      startTone (startTone s) = startTone s ∧
      (startTone (startTone s)).openContexts = 1) := by
  refine ⟨?_, ?_, ?_⟩
  · intro s hs
    have inv := reachable_inv hs
    by_cases hp : s.isPlaying = true
    · have := (inv.1 hp).2.2.2.2
      omega
    · have := (inv.2 (by simpa using hp)).2.2.2.2
      omega
  · intro s h
    simp [startTone, h]
  · intro s hs
    have inv := reachable_inv hs
    by_cases hp : s.isPlaying = true
    · have he : startTone s = s := by simp [startTone, hp]
      constructor
      · rw [he]
        exact he
      · rw [he, he]
        exact (inv.1 hp).2.2.2.2
    · have he : startTone (startTone s) = startTone s := by
        simp [startTone, hp]
      have hoc : (startTone s).openContexts = s.openContexts + 1 := by
        simp [startTone, hp]
      have h0 : s.openContexts = 0 := (inv.2 (by simpa using hp)).2.2.2.2
      refine ⟨he, ?_⟩
      rw [he, hoc, h0]

/-- Witness for C4: a double start from the initial state. -/
theorem c4_start_idempotent_witness :
    startTone (startTone initState) = startTone initState ∧
    (startTone (startTone initState)).openContexts = 1 :=
  c4_start_idempotent.2.2 initState Reachable.init

/-- C5: stop always yields a fully released Idle state; it is idempotent,
a no-op on reachable Idle states, and any number of consecutive stops
yields the same Idle state as a single one. -/
theorem c5_stop_idempotent :
    (∀ s : ToneState, (stopTone s).isPlaying = false ∧
      (stopTone s).audioCtx = none ∧ (stopTone s).oscillator = none ∧
      (stopTone s).gain = none ∧ (stopTone s).analyser = none) ∧
    (∀ s : ToneState, stopTone (stopTone s) = stopTone s) ∧
    (∀ s : ToneState, Reachable s → s.isPlaying = false → stopTone s = s) ∧
    (∀ (s : ToneState) (n : ℕ), stopTone^[n + 1] s = stopTone s) := by
  have hidem : ∀ s : ToneState, stopTone (stopTone s) = stopTone s := by
    intro s
    simp [stopTone]
  refine ⟨?_, hidem, ?_, ?_⟩
  · intro s
    simp [stopTone]
  · intro s hs hp
    have hi := (reachable_inv hs).2 hp
    cases s
    simp_all [stopTone]
  · intro s n
    induction n with
    | zero => simp
    | succ k ih =>
      rw [Function.iterate_succ_apply', ih]
      exact hidem s

/-- Witness for C5: stop from the already-idle initial state. -/
theorem c5_stop_idempotent_witness :
    initState.isPlaying = false ∧ stopTone initState = initState :=
  ⟨rfl, c5_stop_idempotent.2.2.1 initState Reachable.init rfl⟩

/-- C10: session handles are all-or-nothing in every reachable state:
either playing with all four handles set, or idle with all four null. -/
theorem c10_all_or_nothing (s : ToneState) (hs : Reachable s) :
    (s.isPlaying = true ∧ s.audioCtx.isSome = true ∧
      s.oscillator.isSome = true ∧ s.gain.isSome = true ∧
      s.analyser.isSome = true) ∨
    (s.isPlaying = false ∧ s.audioCtx = none ∧ s.oscillator = none ∧
      s.gain = none ∧ s.analyser = none) := by
  have inv := reachable_inv hs
  by_cases hp : s.isPlaying = true
  · have hi := inv.1 hp
    exact Or.inl ⟨hp, hi.1, hi.2.1, hi.2.2.1, hi.2.2.2.1⟩
  · have hp2 : s.isPlaying = false := by simpa using hp
    have hi := inv.2 hp2
    exact Or.inr ⟨hp2, hi.1, hi.2.1, hi.2.2.1, hi.2.2.2.1⟩

/-- Witness for C10 at the initial state. -/
theorem c10_all_or_nothing_witness :
    (initState.isPlaying = true ∧ initState.audioCtx.isSome = true ∧
      initState.oscillator.isSome = true ∧ initState.gain.isSome = true ∧
      initState.analyser.isSome = true) ∨
    (initState.isPlaying = false ∧ initState.audioCtx = none ∧
      initState.oscillator = none ∧ initState.gain = none ∧
      initState.analyser = none) :=
  c10_all_or_nothing initState Reachable.init

/-- The idle guard of `drawSpectrum` (App.tsx lines 135-144): when the
analyser ref is null or `isPlaying` is false it renders the placeholder
text and returns before reading frequency data; modelled as a read that
yields `none` on that branch and the analyser's data otherwise. -/
def readMagnitudes (analyser : Option (List ℕ)) (isPlaying : Bool) :
    Option (List ℕ) :=
  match analyser, isPlaying with
  | none, _ => none
  | some _, false => none
  | some d, true => some d

/-- C6: reading the magnitude snapshot with no analyser or while not
playing takes the placeholder branch and yields absence, never an error. -/
theorem c6_idle_read_absent (analyser : Option (List ℕ)) (isPlaying : Bool)
    (h : analyser = none ∨ isPlaying = false) :
    readMagnitudes analyser isPlaying = none := by
  rcases h with h | h
  · subst h
    rfl
  · subst h
    cases analyser <;> rfl

/-- Witness for C6: an idle read with data present, and a playing read
with no analyser. -/
theorem c6_idle_read_absent_witness :
    readMagnitudes (some [200, 5]) false = none ∧
    readMagnitudes none true = none :=
  ⟨c6_idle_read_absent _ _ (Or.inr rfl), c6_idle_read_absent _ _ (Or.inl rfl)⟩

/-- Lower frequency boundary of spectrum bucket i (App.tsx line 150):
`MIN_FREQ * Math.pow(MAX_FREQ / MIN_FREQ, i / SPECTRUM_BARS)`. -/
noncomputable def bucketFromFreq (i : ℕ) : ℝ :=
  MIN_FREQ * (MAX_FREQ / MIN_FREQ) ^ ((i : ℝ) / (SPECTRUM_BARS : ℝ))

/-- Upper frequency boundary of spectrum bucket i (App.tsx lines 151-152). -/
noncomputable def bucketToFreq (i : ℕ) : ℝ :=
  MIN_FREQ * (MAX_FREQ / MIN_FREQ) ^ (((i : ℝ) + 1) / (SPECTRUM_BARS : ℝ))

/-- Magnitude-array index of the lower boundary (App.tsx lines 153-156):
`Math.max(0, Math.floor((fromFreq / nyquist) * data.length))`. -/
noncomputable def bucketFromIndex (i : ℕ) (nyquist : ℝ) (len : ℕ) : ℤ :=
  max 0 ⌊bucketFromFreq i / nyquist * (len : ℝ)⌋

/-- Magnitude-array index of the upper boundary (App.tsx lines 157-160):
`Math.min(data.length - 1, Math.ceil((toFreq / nyquist) * data.length))`. -/
noncomputable def bucketToIndex (i : ℕ) (nyquist : ℝ) (len : ℕ) : ℤ :=
  min ((len : ℤ) - 1) ⌈bucketToFreq i / nyquist * (len : ℝ)⌉

lemma bucketToFreq_eq (i : ℕ) : bucketToFreq i = bucketFromFreq (i + 1) := by
  unfold bucketToFreq bucketFromFreq
  have h : ((i:ℝ) + 1) = ((i + 1 : ℕ) : ℝ) := by push_cast; ring
  rw [h]

lemma bucketFromFreq_mono (i : ℕ) : bucketFromFreq i < bucketFromFreq (i + 1) := by
  unfold bucketFromFreq
  rw [ratio_eq]
  have hmin : (0:ℝ) < MIN_FREQ := by norm_num [MIN_FREQ]
  apply mul_lt_mul_of_pos_left _ hmin
  rw [Real.rpow_lt_rpow_left_iff (by norm_num : (1:ℝ) < 2500)]
  have hs : (SPECTRUM_BARS:ℝ) = 72 := by norm_num [SPECTRUM_BARS]
  rw [hs]
  push_cast
  linarith

lemma fromIdx_zero : bucketFromIndex 0 24000 2048 = 0 := by
  unfold bucketFromIndex bucketFromFreq
  rw [ratio_eq]
  norm_num [SPECTRUM_BARS, MIN_FREQ]

lemma toIdx_last : bucketToIndex 71 24000 2048 = 2047 := by
  unfold bucketToIndex bucketToFreq
  rw [ratio_eq]
  have he : (((71:ℕ):ℝ) + 1) / (SPECTRUM_BARS:ℝ) = 1 := by
    norm_num [SPECTRUM_BARS]
  rw [he, Real.rpow_one]
  have hceil : (2047:ℤ) < ⌈MIN_FREQ * 2500 / 24000 * ((2048:ℕ):ℝ)⌉ := by
    rw [Int.lt_ceil]
    norm_num [MIN_FREQ]
  have hlen : ((2048:ℕ):ℤ) - 1 = 2047 := by norm_num
  rw [hlen, min_eq_left (le_of_lt hceil)]

lemma cover_from (k : ℤ) (hk0 : 0 ≤ k) (hk1 : k ≤ 2047) :
    ∀ m : ℕ, m ≤ 71 →
      bucketFromIndex (71 - m) 24000 2048 ≤ k →
      ∃ i : ℕ, i ≤ 71 ∧ bucketFromIndex i 24000 2048 ≤ k ∧
        k ≤ bucketToIndex i 24000 2048 := by
  intro m
  induction m with
  | zero =>
    intro _ hfrom
    refine ⟨71, le_refl 71, by simpa using hfrom, ?_⟩
    rw [toIdx_last]
    exact hk1
  | succ n ih =>
    intro hm hfrom
    by_cases hnext : bucketFromIndex (71 - n) 24000 2048 ≤ k
    · exact ih (by omega) hnext
    · push_neg at hnext
      refine ⟨71 - (n + 1), by omega, hfrom, ?_⟩
      have hsucc : 71 - n = (71 - (n + 1)) + 1 := by omega
      rw [hsucc] at hnext
      have heq : bucketToFreq (71 - (n + 1)) = bucketFromFreq ((71 - (n + 1)) + 1) :=
        bucketToFreq_eq _
      unfold bucketFromIndex at hnext
      unfold bucketToIndex
      rw [heq]
      rcases lt_max_iff.mp hnext with h | h
      · omega
      · have hfc :=
          Int.floor_le_ceil (bucketFromFreq ((71 - (n + 1)) + 1) / 24000 * ((2048:ℕ):ℝ))
        refine le_min ?_ ?_
        · omega
        · omega

/-- C7: the 72 log-spaced bucket boundaries are strictly increasing
(consecutive buckets sharing a boundary), and with the session's
analysis length 2048 and the default nyquist 24000 the clamped index
spans of the buckets cover the whole magnitude-array range [0, 2047]. -/
theorem c7_buckets_cover :
    (∀ i : ℕ, bucketToFreq i = bucketFromFreq (i + 1) ∧
      bucketFromFreq i < bucketFromFreq (i + 1)) ∧
    (∀ k : ℤ, 0 ≤ k → k ≤ 2047 →
      ∃ i : ℕ, i ≤ 71 ∧ bucketFromIndex i 24000 2048 ≤ k ∧
        k ≤ bucketToIndex i 24000 2048) := by
  refine ⟨fun i => ⟨bucketToFreq_eq i, bucketFromFreq_mono i⟩, ?_⟩
  intro k hk0 hk1
  apply cover_from k hk0 hk1 71 (le_refl 71)
  have h71 : 71 - 71 = 0 := by norm_num
  rw [h71, fromIdx_zero]
  exact hk0

/-- Witness for C7 at magnitude index k = 0. -/
theorem c7_buckets_cover_witness :
    (0:ℤ) ≤ 0 ∧ (0:ℤ) ≤ 2047 ∧
    (∃ i : ℕ, i ≤ 71 ∧ bucketFromIndex i 24000 2048 ≤ 0 ∧
      (0:ℤ) ≤ bucketToIndex i 24000 2048) :=
  ⟨le_refl 0, by norm_num, c7_buckets_cover.2 0 (le_refl 0) (by norm_num)⟩

/-- The pulse factor in `drawLogMap` (App.tsx line 244):
`isPlaying ? 0.9 + Math.sin(time / 420) * 0.1 : 0.55`. -/
noncomputable def pulse (isPlaying : Bool) (time : ℝ) : ℝ :=
  if isPlaying then 0.9 + Real.sin (time / 420) * 0.1 else 0.55

/-- The frequency mapped to horizontal pixel x in `drawLogMap`
(App.tsx lines 249-250). -/
noncomputable def curveCurrentFreq (width x : ℝ) : ℝ :=
  MIN_FREQ * (MAX_FREQ / MIN_FREQ) ^ (x / max 1 width)

/-- The Gaussian envelope of the response curve (App.tsx lines 251-252):
distance is `Math.log2(currentFreq / frequency)` and the envelope is
`Math.exp(-(distance * distance) / (2 * 0.23 * 0.23))`. -/
noncomputable def curveEnvelope (frequency currentFreq : ℝ) : ℝ :=
  Real.exp (-(Real.logb 2 (currentFreq / frequency) *
    Real.logb 2 (currentFreq / frequency)) / (2 * 0.23 * 0.23))

/-- The curve's y coordinate at pixel x (App.tsx lines 243-254):
`height - 20 - envelope * amplitude * pulse * Math.max(24, height - 44)`
with `amplitude = Math.min(1, volume / MAX_VOLUME)`. -/
noncomputable def curveY (width height frequency volume : ℝ)
    (isPlaying : Bool) (time x : ℝ) : ℝ :=
  height - 20 - curveEnvelope frequency (curveCurrentFreq width x) *
    min 1 (volume / MAX_VOLUME) * pulse isPlaying time * max 24 (height - 44)

lemma pulse_running_gt_idle (t : ℝ) : pulse false t < pulse true t := by
  unfold pulse
  simp only [if_true, if_false, Bool.false_eq_true, ↓reduceIte]
  have hs := Real.neg_one_le_sin (t / 420)
  nlinarith

/-- C8: the pulse factor is 0.9 + 0.1*sin(t/420) while Running and the
constant 0.55 while Idle, hence for any positive volume the curve height
differs between the Running and Idle states at every pixel. -/
theorem c8_pulse_distinguishes (width height frequency volume time x : ℝ)
    (hv : 0 < volume) :
    pulse true time = 0.9 + 0.1 * Real.sin (time / 420) ∧
    pulse false time = 0.55 ∧
    curveY width height frequency volume true time x ≠
      curveY width height frequency volume false time x := by
  refine ⟨by unfold pulse; norm_num; ring, by unfold pulse; norm_num, ?_⟩
  unfold curveY
  intro hcontra
  have hE : 0 < curveEnvelope frequency (curveCurrentFreq width x) :=
    Real.exp_pos _
  have hA : 0 < min 1 (volume / MAX_VOLUME) := by
    apply lt_min
    · norm_num
    · apply div_pos hv
      norm_num [MAX_VOLUME]
  have hM : (0:ℝ) < max 24 (height - 44) := lt_of_lt_of_le (by norm_num) (le_max_left _ _)
  have hp := pulse_running_gt_idle time
  have hprod :
      curveEnvelope frequency (curveCurrentFreq width x) *
        min 1 (volume / MAX_VOLUME) * pulse false time * max 24 (height - 44) <
      curveEnvelope frequency (curveCurrentFreq width x) *
        min 1 (volume / MAX_VOLUME) * pulse true time * max 24 (height - 44) := by
    apply mul_lt_mul_of_pos_right _ hM
    apply mul_lt_mul_of_pos_left hp
    exact mul_pos hE hA
  nlinarith

/-- Witness for C8 at a concrete rendering configuration. -/
theorem c8_pulse_distinguishes_witness :
    (0:ℝ) < 0.08 ∧
    curveY 640 192 440 0.08 true 0 320 ≠ curveY 640 192 440 0.08 false 0 320 :=
  ⟨by norm_num, (c8_pulse_distinguishes 640 192 440 0.08 0 320 (by norm_num)).2.2⟩

end SynthLab
